import Mathlib

/-!
Verification of the schema-walking / field-resolution / tabular-codec utilities of
`src/incydr/utils.py` (the spec's "core component") against the specification.

The embedding strategy:
* a pydantic model class is represented by its ordered `__fields__` mapping (`Schema` below);
  a field whose `type_` is itself a model class is a `consModel` entry carrying the child
  class, every other field is a `consPrim` entry recording the python type's name;
* a pydantic model instance is a `Value.vModel` carrying its class and its attribute map,
  other python values are the remaining `Value` constructors;
* python callables stored in field metadata (`field_info.extra`) and in
  `Config.json_encoders` are represented by string identifiers which an environment
  function `env : String → Value → Value` resolves at application time (functions cannot
  be stored inside the inductive types);
* python `str` operations (`split`, `replace`, `startswith`, `in`) are modelled on the
  character sequence of the string (`String.toList`), which is exactly what the python
  operations are defined on;
* fallible python code (exceptions) returns `Except PyError`.
-/

namespace Incydr

/-- Field shape marker of a pydantic `ModelField`: `SHAPE_SINGLETON` for a singular field,
`SHAPE_LIST` stands for every non-singleton shape that appears here (`List[...]`). -/
inductive Shape where
  | SHAPE_SINGLETON
  | SHAPE_LIST
deriving DecidableEq, Repr

/-- The ordered `__fields__` mapping of a pydantic model class.  `consPrim n ty sh ex rest`
declares field `n` whose `type_` is the non-model python type named `ty`, with shape `sh`
and `field_info.extra` hint table `ex` (hint name ↦ callable identifier); `consModel`
declares a field whose `type_` is a model class with its own `__fields__`. -/
inductive Schema where
  | nil
  | consPrim (name tyName : String) (shape : Shape) (extra : List (String × String)) (rest : Schema)
  | consModel (name : String) (sub : Schema) (shape : Shape) (extra : List (String × String)) (rest : Schema)
deriving DecidableEq, Repr

/-- A pydantic `ModelField.type_`: either a non-model python type or a model class. -/
inductive FType where
  | prim (tyName : String)
  | model (sub : Schema)
deriving DecidableEq, Repr

/-- The data of one pydantic `ModelField`: its `type_`, `shape` and `field_info.extra`. -/
structure MField where
  type_ : FType
  shape : Shape
  extra : List (String × String)
deriving DecidableEq, Repr

/-- A python runtime value.  `vModel cls attrs` is a pydantic model instance of class `cls`
with attribute map `attrs`; `vScalar ty r` is a value of some other scalar class `ty`
(e.g. a datetime) whose `str()` form is `r`. -/
inductive Value where
  | vNone
  | vStr (s : String)
  | vInt (n : Int)
  | vScalar (tyName : String) (str : String)
  | vList (elems : List Value)
  | vModel (cls : Schema) (attrs : List (String × Value))

/-- First-match association list lookup (python `dict` access; keys are unique in every
dict the source builds, so first-match agrees with dict semantics). -/
def alookup {α : Type} : List (String × α) → String → Option α
  | [], _ => none
  | kv :: rest, n => if kv.1 = n then some kv.2 else alookup rest n

/-- The declared field names of a model class in declaration order
(`list(model.__fields__)`). -/
def names : Schema → List String
  | .nil => []
  | .consPrim n _ _ _ rest => n :: names rest
  | .consModel n _ _ _ rest => n :: names rest

/-- Dict lookup `model.__fields__.get(name)` on a model class: the field declared under
`name`. -/
def lookupField : Schema → String → Option MField
  | .nil, _ => none
  | .consPrim n t sh ex rest, m => if n = m then some ⟨.prim t, sh, ex⟩ else lookupField rest m
  | .consModel n s sh ex rest, m => if n = m then some ⟨.model s, sh, ex⟩ else lookupField rest m

/-- Attribute read `getattr(model, name)` on a pydantic instance.  `none` models the
`AttributeError` raised on a missing attribute or a non-model receiver. -/
def getattrOpt : Value → String → Option Value
  | .vModel _ attrs, n => alookup attrs n
  | _, _ => none

/-- The class of a value for `Config.json_encoders` lookups (`type(value)`), identified by
name. -/
def typeName : Value → String
  | .vNone => "NoneType"
  | .vStr _ => "str"
  | .vInt _ => "int"
  | .vScalar t _ => t
  | .vList _ => "list"
  | .vModel _ _ => "BaseModel"

/-- The python exceptions the translated code can raise. -/
inductive PyError where
  | valueError (pattern : String) (validFields : List String)
  | attributeError (msg : String)
  | keyError (key : String)
  | indexError (msg : String)
  | typeError (msg : String)
  | stopIteration
deriving DecidableEq, Repr

/-- Translation of `flatten_fields` (utils.py lines 160-183): yields all fields of a model
and any sub-models as flat dot-notation strings, descending only into fields whose `type_`
is a model class and whose shape is `SHAPE_SINGLETON`. -/
def flatten_fields : Schema → List String
  | .nil => []
  | .consPrim n _ _ _ rest => n :: flatten_fields rest
  | .consModel n sub shape _ rest =>
      (if shape = .SHAPE_SINGLETON then (flatten_fields sub).map (fun c => n ++ "." ++ c)
       else [n]) ++ flatten_fields rest

/-- Python `"*" in i`: the string contains an asterisk character. -/
def pyContainsStar (s : String) : Bool := s.toList.contains '*'

/-- Python `i.replace("*", "")`: removes every asterisk character. -/
def pyStripStars (s : String) : String := (s.toList.filter (fun c => c ≠ '*')).asString

/-- Python `s.startswith(pre)` on character sequences. -/
def pyStartsWith (s pre : String) : Bool := pre.toList.isPrefixOf s.toList

/-- The matches one `include` entry produces against the available field list, following the
loop body of `get_fields` (utils.py lines 204-214): a wildcard entry keeps every field that
starts with the entry stripped of its asterisks, in field order; a non-wildcard entry is an
exact membership test yielding the entry itself once. -/
def entryMatches (fields : List String) (i : String) : List String :=
  if pyContainsStar i then fields.filter (fun f => pyStartsWith f (pyStripStars i))
  else if fields.contains i then [i] else []

/-- The `include` loop of `get_fields`: each entry yields its matches; an entry with no
match raises `ValueError` carrying the entry and the full field list (the generator has
already yielded earlier matches when it raises; the `Except` result keeps only the error,
which is what every caller that drains the generator observes). -/
def get_fields_loop (fields : List String) : List String → Except PyError (List String)
  | [] => .ok []
  | i :: rest =>
      let ms := entryMatches fields i
      if ms.isEmpty then .error (.valueError i fields)
      else (get_fields_loop fields rest).map (fun tail => ms ++ tail)

/-- Translation of `get_fields` (utils.py lines 186-219).  `fields` is the flattened walk
when `flat` else the top-level `__fields__` names; a `None` or empty `include` (python
falsiness of `if not include`) yields all fields; otherwise the include loop filters and
orders the output. -/
def get_fields (model : Schema) (inc : Option (List String)) (flat : Bool) :
    Except PyError (List String) :=
  let fields := if flat then flatten_fields model else names model
  match inc with
  | none => .ok fields
  | some [] => .ok fields
  | some is => get_fields_loop fields is

/-- The all-absent placeholder instance
`model_type.construct(**{field: None for field in model_type.__fields__})`
(utils.py lines 61-63): every declared field set to `None`. -/
def constructNone : Schema → List (String × Value)
  | .nil => []
  | .consPrim n _ _ _ rest => (n, .vNone) :: constructNone rest
  | .consModel n _ _ _ rest => (n, .vNone) :: constructNone rest

/-- Translation of `get_field_value_and_info` (utils.py lines 30-68): walk all path
components but the last, substituting the all-`None` placeholder of the expected child
class whenever the stored child is `None`; at the last component return the attribute value
and the `__fields__.get` metadata. -/
def get_field_value_and_info : Value → List String → Except PyError (Value × Option MField)
  | _, [] => .error (.indexError ("list index out of range"))
  | model, [last] =>
      match getattrOpt model last with
      | none => .error (.attributeError last)
      | some v =>
          match model with
          | .vModel cls _ => .ok (v, lookupField cls last)
          | _ => .error (.attributeError last)
  | model, p :: q :: rest =>
      match getattrOpt model p with
      | none => .error (.attributeError p)
      | some next =>
          match next with
          | .vNone =>
              match model with
              | .vModel cls _ =>
                  match lookupField cls p with
                  | none => .error (.keyError p)
                  | some mf =>
                      match mf.type_ with
                      | .model sub =>
                          get_field_value_and_info (.vModel sub (constructNone sub)) (q :: rest)
                      | .prim t => .error (.attributeError ("construct: " ++ t))
              | _ => .error (.attributeError p)
          | _ => get_field_value_and_info next (q :: rest)

/-- Python `name.split(".")` (utils.py line 90): the chunks of the character sequence
between occurrences of `'.'`, empty chunks preserved. -/
def pySplitDot (s : String) : List String := (s.toList.splitOn '.').map List.asString

/-- The spec's canonical dot-joined rendering of a Field Path given as a component list. -/
def dotJoin : List String → String
  | [] => ""
  | [c] => c
  | c :: cs => c ++ "." ++ dotJoin cs

/-- Specification-side Schema Walker (spec sections 4.1 and 8): the Field Path of every
leaf reachable through singular nested fields, depth-first in field-declaration order, with
collection-of-nested fields kept as single non-expanded paths — given as component lists. -/
def specFlattenLeafPaths : Schema → List (List String)
  | .nil => []
  | .consPrim n _ _ _ rest => [n] :: specFlattenLeafPaths rest
  | .consModel n sub shape _ rest =>
      (if shape = .SHAPE_SINGLETON then (specFlattenLeafPaths sub).map (fun p => n :: p)
       else [[n]]) ++ specFlattenLeafPaths rest

/-- A usable python attribute name: nonempty and without a dot (dot-notation paths could
not address the field otherwise; python identifiers satisfy this). -/
def validName (n : String) : Bool := n ≠ "" && !(n.toList.contains '.')

/-- Well-formed schema: what pydantic guarantees by construction — `__fields__` is a python
dict keyed by attribute names, so names at each level are unique and are usable attribute
names; required recursively of nested model classes. -/
def wfNames : Schema → Bool
  | .nil => true
  | .consPrim n _ _ _ rest => validName n && !((names rest).contains n) && wfNames rest
  | .consModel n sub _ _ rest =>
      validName n && !((names rest).contains n) && wfNames sub && wfNames rest

mutual

/-- A Record conforming to Schema `cls` (spec section 3): a model instance of exactly that
class whose attributes conform field-wise. -/
inductive ConformsV : Schema → Value → Prop where
  | mk : ∀ (cls : Schema) (attrs : List (String × Value)),
      ConformsAttrs cls attrs → ConformsV cls (.vModel cls attrs)

/-- Field-wise conformance of an attribute map to (a suffix of) a class's field list:
every declared field is present; a scalar field holds any value, an optional nested field
holds `None` or a conforming child Record, a collection-of-nested field holds `None` or a
list. -/
inductive ConformsAttrs : Schema → List (String × Value) → Prop where
  | nil : ∀ attrs, ConformsAttrs .nil attrs
  | prim : ∀ n t sh ex rest attrs v, alookup attrs n = some v →
      ConformsAttrs rest attrs → ConformsAttrs (.consPrim n t sh ex rest) attrs
  | modelNone : ∀ n sub sh ex rest attrs, alookup attrs n = some .vNone →
      ConformsAttrs rest attrs → ConformsAttrs (.consModel n sub sh ex rest) attrs
  | modelSome : ∀ n sub ex rest attrs v, alookup attrs n = some v → ConformsV sub v →
      ConformsAttrs rest attrs → ConformsAttrs (.consModel n sub .SHAPE_SINGLETON ex rest) attrs
  | modelList : ∀ n sub ex rest attrs elems, alookup attrs n = some (.vList elems) →
      ConformsAttrs rest attrs → ConformsAttrs (.consModel n sub .SHAPE_LIST ex rest) attrs

end

/-- Python truthiness of the `render` argument (`if render and ...`, utils.py line 93):
`None` and the empty string are falsy. -/
def pyTruthyOptStr : Option String → Bool
  | none => false
  | some s => s ≠ ""

/-- The (name, rendered value) pair one iteration of `iter_model_formatted` yields from
the resolved `(value, field)` of a field path (utils.py lines 92-100): the named hint's
callable when `render` is truthy and the field metadata has one under it
(`field.field_info.extra.get(render)`), else the `Config.json_encoders` entry for the
value's type, else the raw value. -/
def renderPair (env : String → Value → Value) (json_encoders : List (String × String))
    (render : Option String) (name : String) (vf : Value × Option MField) : String × Value :=
  match (if pyTruthyOptStr render then
           match vf.2, render with
           | some f, some r => alookup f.extra r
           | _, _ => none
         else none) with
  | some rid => (name, env rid vf.1)
  | none =>
      match alookup json_encoders (typeName vf.1) with
      | some eid => (name, env eid vf.1)
      | none => (name, vf.1)

/-- Loop body of `iter_model_formatted` (utils.py lines 89-100) over the already-computed
field list.  `env` resolves the callable identifiers stored in field hints and in
`Config.json_encoders` (callables live outside the data model); `json_encoders` stands for
`model.Config.json_encoders`, keyed by type name. -/
def imfLoop (env : String → Value → Value) (json_encoders : List (String × String))
    (model : Value) (render : Option String) :
    List String → Except PyError (List (String × Value))
  | [] => .ok []
  | name :: rest => do
      let vf ← get_field_value_and_info model (pySplitDot name)
      let tail ← imfLoop env json_encoders model render rest
      .ok (renderPair env json_encoders render name vf :: tail)

/-- Translation of `iter_model_formatted` (utils.py lines 71-100): walk the fields of the
model's class via `get_fields`, resolve each dotted name through
`get_field_value_and_info`, and render each value (named hint if the `render` argument is
truthy and the field metadata has a callable under it, else the `Config.json_encoders`
entry for the value's type, else the raw value). -/
def iter_model_formatted (env : String → Value → Value)
    (json_encoders : List (String × String)) (model : Value) (inc : Option (List String))
    (flat : Bool) (render : Option String) : Except PyError (List (String × Value)) :=
  match model with
  | .vModel cls _ => do
      let fields ← get_fields cls inc flat
      imfLoop env json_encoders model render fields
  | _ => .error (.attributeError ("__fields__"))

/-- Spec-side type-based default rendering tier (spec section 4.3, steps 3-4): the type
encoder declared at the Schema root for the value's runtime type, else the identity. -/
def specTypeDefault (env : String → Value → Value) (json_encoders : List (String × String))
    (raw : Value) : Value :=
  match alookup json_encoders (typeName raw) with
  | some eid => env eid raw
  | none => raw

/-- Spec-side three-tier rendering policy (spec section 4.3), with the amendment the code
forces: a hint applies when the caller requested a NON-EMPTY hint name and the field's
metadata declares a transformation under it; otherwise the type-based default encoder;
otherwise the raw value. -/
def specRender (env : String → Value → Value) (json_encoders : List (String × String))
    (field : Option MField) (render : Option String) (raw : Value) : Value :=
  match render, field with
  | some r, some f =>
      if r ≠ "" then
        match alookup f.extra r with
        | some rid => env rid raw
        | none => specTypeDefault env json_encoders raw
      else specTypeDefault env json_encoders raw
  | _, _ => specTypeDefault env json_encoders raw

/-! ### Tabular codec -/

/-- A parsed CSV source: the comma-split lines (csv parsing itself is the stdlib's concern;
this core consumes what `csv.DictReader` iterates). -/
structure CSVFile where
  lines : List (List String)
deriving DecidableEq, Repr

/-- Translation of `CSVValidationError` (utils.py lines 222-228). -/
structure CSVValidationError where
  msg : String
  row : Nat
deriving DecidableEq, Repr

/-- One `DictReader` row as a dict (header zipped with the cells) after the empty-string
normalization loop of utils.py lines 243-245: an empty cell becomes `None`. -/
def normalizeRow (header row : List String) : List (String × Option String) :=
  (header.zip row).map (fun kv => (kv.1, if kv.2 = "" then none else some kv.2))

/-- Loop of `read_models_from_csv` (utils.py lines 241-254) over the data rows.  `mk` is
the external pydantic constructor `model(**row)` (returning the validation error text on
failure); `lineNum` is `reader.line_num` for the current row (the header is line 1, so the
first data row is line 2).  Each failure OVERWRITES the remembered error, so the pair
returned is (the yielded records, the error built from the LAST failing row, if any). -/
def read_models_loop {α : Type} (mk : List (String × Option String) → Except String α)
    (pathStr : String) (header : List String) :
    Nat → List (List String) → List α × Option CSVValidationError
  | _, [] => ([], none)
  | lineNum, row :: rest =>
      let res := read_models_loop mk pathStr header (lineNum + 1) rest
      match mk (normalizeRow header row) with
      | .ok m => (m :: res.1, res.2)
      | .error err =>
          (res.1,
           some (res.2.getD
             ⟨"Bad data in row " ++ toString lineNum ++ " of " ++ pathStr ++ "\n" ++ err,
              lineNum⟩))

/-- Translation of `read_models_from_csv` (utils.py lines 231-254): construct a Record per
data row, continue past failures, and surface one remembered error after the source is
exhausted (the generator's final `raise`); the result pair is (yielded records, that
error). -/
def read_models_from_csv {α : Type} (mk : List (String × Option String) → Except String α)
    (pathStr : String) (f : CSVFile) : List α × Option CSVValidationError :=
  match f.lines with
  | [] => ([], none)
  | header :: rows => read_models_loop mk pathStr header 2 rows

/-- Translation of `read_dict_from_csv` (utils.py lines 257-270): `DictReader` with
optional explicit field names (when given, every line is a data row), with the same
empty-string normalization. -/
def read_dict_from_csv (f : CSVFile) (field_names : Option (List String)) :
    List (List (String × Option String)) :=
  match field_names with
  | some ns => f.lines.map (normalizeRow ns)
  | none =>
      match f.lines with
      | [] => []
      | header :: rows => rows.map (normalizeRow header)

/-- A written CSV: the header line and the data rows `DictWriter` emitted. -/
structure CsvOut where
  header : List String
  rows : List (List String)
deriving DecidableEq, Repr

/-- The cell text the csv writer produces for a value: `""` for `None`, `str(value)`
otherwise (compound values are rendered opaquely; no claim depends on their text). -/
def pyStr : Value → String
  | .vNone => ""
  | .vStr s => s
  | .vInt n => toString n
  | .vScalar _ r => r
  | .vList _ => "<list>"
  | .vModel _ _ => "<model>"

/-- The value the `columns` argument has after `if columns: columns = set(columns)`
(utils.py lines 278-279).  The python falsiness check converts only a TRUTHY list into a
set; `None` stays `None`, and an empty list — falsy — is left untouched as a raw python
`list`, which pydantic's `.dict(include=...)` does not accept. -/
inductive IncludeArg where
  | noneInclude
  | rawEmptyList
  | includeSet (cs : List String)
deriving DecidableEq, Repr

/-- Translation of `if columns: columns = set(columns)` (utils.py lines 278-279). -/
def normalizeColumns : Option (List String) → IncludeArg
  | none => .noneInclude
  | some [] => .rawEmptyList
  | some cs => .includeSet cs

/-- Membership in the `include` set handed to pydantic `.dict` (a python `set`, so only
membership matters).  The `rawEmptyList` arm is never consulted: `.dict` raises before
filtering on that argument. -/
def colsAllow : IncludeArg → String → Bool
  | .noneInclude, _ => true
  | .includeSet cs, n => cs.contains n
  | .rawEmptyList, _ => false

/-- The field-to-value mapping pydantic `.dict` produces when its `include` argument is
acceptable: the instance's own fields in declared order, restricted to the include set
when one is given, values straight from the instance. -/
def pydantic_dict_items : Value → IncludeArg → List (String × Value)
  | .vModel cls attrs, cols =>
      (names cls).filterMap
        (fun n => if colsAllow cols n then some (n, (alookup attrs n).getD .vNone) else none)
  | _, _ => []

/-- pydantic `model.dict(by_alias=False, include=cols)` (external library, modelled):
`include` must be `None`, a set or a mapping — a raw `list` (the falsy-empty `columns`
case) makes `ValueItems._coerce_items` raise `TypeError`; otherwise the field-to-value
mapping is produced. -/
def pydantic_dict (m : Value) (cols : IncludeArg) : Except PyError (List (String × Value)) :=
  match cols with
  | .rawEmptyList => .error (.typeError ("Unexpected type of exclude value <class 'list'>"))
  | _ => .ok (pydantic_dict_items m cols)

/-- `DictWriter.writerow` with the default `extrasaction="raise"` and `restval=""`
(python stdlib, modelled): a key outside `fieldnames` raises `ValueError`; otherwise one
cell per fieldname, missing keys filled with the empty string. -/
def dictWriterRow (fieldnames : List String) (rowdict : List (String × Value)) :
    Except PyError (List String) :=
  if rowdict.any (fun kv => !(fieldnames.contains kv.1)) then
    .error (.valueError ("dict contains fields not in fieldnames") fieldnames)
  else
    .ok (fieldnames.map (fun h => match alookup rowdict h with | some v => pyStr v | none => ""))

/-- The row loop of `write_models_to_csv` (utils.py lines 289-290): each Record is
converted by `.dict(include=columns)` — which can itself raise — and handed to the
writer. -/
def write_models_rows (fieldnames : List String) (cols : IncludeArg) :
    List Value → Except PyError (List (List String))
  | [] => .ok []
  | m :: rest => do
      let d ← pydantic_dict m cols
      let r ← dictWriterRow fieldnames d
      let rs ← write_models_rows fieldnames cols rest
      .ok (r :: rs)

/-- Translation of `write_models_to_csv` (utils.py lines 273-290): a truthy `columns`
becomes a set used only as the `.dict(include=...)` filter; the header is
`list(first.__fields__)` — the first Record's full field list; `next(models)` on an empty
input raises `StopIteration`.  When a row conversion raises (the raw-empty-list `columns`
case), the real writer has already emitted the header; the `Except` result keeps only the
error. -/
def write_models_to_csv (models : List Value) (columns : Option (List String)) :
    Except PyError CsvOut :=
  let cols : IncludeArg := normalizeColumns columns
  match models with
  | [] => .error .stopIteration
  | first :: rest =>
      match first with
      | .vModel cls _ => do
          let rows ← write_models_rows (names cls) cols (first :: rest)
          .ok ⟨names cls, rows⟩
      | _ => .error (.attributeError ("__fields__"))

/-- Python `s.strip()`: whitespace removed from both ends of the character sequence. -/
def pyStrip (s : String) : String :=
  (((s.toList.dropWhile Char.isWhitespace).reverse.dropWhile Char.isWhitespace).reverse).asString

/-- Python `s.split(",")`. -/
def pySplitComma (s : String) : List String := (s.toList.splitOn ',').map List.asString

/-- Python `{c: first[c] for c in columns}` (utils.py lines 305 and 318): `KeyError` when a
requested column is missing from the mapping. -/
def restrictDict (d : List (String × Value)) : List String → Except PyError (List (String × Value))
  | [] => .ok []
  | c :: cs =>
      match alookup d c with
      | some v => (restrictDict d cs).map (fun rest => (c, v) :: rest)
      | none => .error (.keyError c)

/-- The dynamic objects `write_dict_to_csv` manipulates where it expects a dict: calling
the generator function `flatten_fields` (which expects a model CLASS) on a plain dict does
not raise — it merely builds an unevaluated generator object. -/
inductive PyObj where
  | dict (entries : List (String × Value))
  | generator (source : List (String × Value))

/-- Python `obj.keys()`: defined on a dict; a generator object has no `keys` attribute, so
the call raises `AttributeError`. -/
def pyKeys : PyObj → Except PyError (List String)
  | .dict es => .ok (es.map (fun kv => kv.1))
  | .generator _ => .error (.attributeError ("generator object has no attribute keys"))

/-- One row write of `write_dict_to_csv` (utils.py lines 316-319): restrict to the columns,
pass `flatten_fields(model)` — a generator — to `DictWriter.writerow`, whose first step
inspects `rowdict.keys()` and therefore raises `AttributeError`. -/
def write_dict_row (cols : Option (List String)) (fieldnames : List String)
    (m : List (String × Value)) : Except PyError (List String) := do
  let m1 ← match cols with
    | some cs => restrictDict m cs
    | none => .ok m
  let keys ← pyKeys (PyObj.generator m1)
  .ok (fieldnames.map (fun h => if keys.contains h then (match alookup m1 h with | some v => pyStr v | none => "") else ""))

/-- Translation of `write_dict_to_csv` (utils.py lines 293-319): split the comma-separated
`columns` string (python-falsy when `None` or empty), take the first mapping, restrict it,
then call `flatten_fields(first)` — the model-class walker — on the DICT and ask the
resulting generator for `.keys()` to build the header. -/
def write_dict_to_csv (models : List (List (String × Value))) (columns : Option String) :
    Except PyError CsvOut :=
  let cols : Option (List String) :=
    match columns with
    | some s => if s = "" then none else some ((pySplitComma s).map pyStrip)
    | none => none
  match models with
  | [] => .error .stopIteration
  | first :: rest => do
      let first1 ← match cols with
        | some cs => restrictDict first cs
        | none => .ok first
      let fieldnames ← pyKeys (PyObj.generator first1)
      let rows ← (first1 :: rest).mapM (write_dict_row cols fieldnames)
      .ok ⟨fieldnames, rows⟩

/-! ### Concrete fixtures for witnesses and counterexamples -/

/-- Modelled from the spec (external pydantic constructor): `model(**row)` for an
all-scalar, all-optional string Schema sets each declared field from the normalized row
(`None` or a missing key → absent). -/
def scalarAttrs : Schema → List (String × Option String) → List (String × Value)
  | .nil, _ => []
  | .consPrim n _ _ _ rest, row =>
      (n, match alookup row n with | some (some s) => .vStr s | _ => .vNone) :: scalarAttrs rest row
  | .consModel n _ _ _ rest, _ => (n, .vNone) :: scalarAttrs rest []

/-- Modelled from the spec (external pydantic constructor): Record construction for a
pure-scalar optional schema never fails. -/
def mkScalarRecord (cls : Schema) (row : List (String × Option String)) : Except String Value :=
  .ok (.vModel cls (scalarAttrs cls row))

/-- A Schema made only of scalar (non-model) fields — the spec's "pure-scalar schema". -/
def isScalarSchema : Schema → Bool
  | .nil => true
  | .consPrim _ _ _ _ rest => isScalarSchema rest
  | .consModel _ _ _ _ _ => false

/-- Python `int(s)` on a decimal string, on the character sequence: at least one character
and all of them digits. -/
def pyParseNat (s : String) : Option Nat :=
  if s.toList ≠ [] && s.toList.all (fun c => ("0123456789".toList).contains c) then
    some (s.toList.foldl (fun n c => n * 10 + (c.toNat - 48)) 0)
  else none

/-- A concrete Record constructor requiring one integer field `n` (the spec's "required
integer field" ingest scenario). -/
def mkNatField (row : List (String × Option String)) : Except String Nat :=
  match alookup row "n" with
  | some (some s) => match pyParseNat s with | some k => .ok k | none => .error ("invalid int: " ++ s)
  | _ => .error ("field required")

/-- Child model class of the resolver witness: `field_1: str`, `field_2: int`. -/
def childSchema : Schema :=
  .consPrim "field_1" "str" .SHAPE_SINGLETON []
    (.consPrim "field_2" "int" .SHAPE_SINGLETON [] .nil)

/-- Parent model class of the resolver witness: `field: str`, `child: Optional[Child]`. -/
def parentSchema : Schema :=
  .consPrim "field" "str" .SHAPE_SINGLETON []
    (.consModel "child" childSchema .SHAPE_SINGLETON [] .nil)

/-- A Record of `parentSchema` whose optional nested `child` is absent. -/
def parentNoChild : Value :=
  .vModel parentSchema [("field", .vStr "x"), ("child", .vNone)]

/-- Schema of the wildcard-include scenario: `event.id`, `file.name`, `file.size`. -/
def eventFileSchema : Schema :=
  .consModel "event" (.consPrim "id" "str" .SHAPE_SINGLETON [] .nil) .SHAPE_SINGLETON []
    (.consModel "file"
      (.consPrim "name" "str" .SHAPE_SINGLETON []
        (.consPrim "size" "int" .SHAPE_SINGLETON [] .nil))
      .SHAPE_SINGLETON [] .nil)

/-- Model class of the render-precedence fixture: one int field `f` carrying a `table`
render hint (callable identifier `h`) and an empty-named hint entry as well. -/
def renderSchema : Schema :=
  .consPrim "f" "int" .SHAPE_SINGLETON [("table", "h"), ("", "h")] .nil

/-- Instance of `renderSchema` with `f = 5`. -/
def renderModel : Value := .vModel renderSchema [("f", .vInt 5)]

/-- Callable environment of the render fixtures: `h` is the named hint's transformation,
`e` the type-based default encoder for `int`. -/
def renderEnv : String → Value → Value :=
  fun rid v => if rid = "h" then .vStr "hint" else if rid = "e" then .vStr "enc" else v

/-- The `Config.json_encoders` of the render fixtures: an encoder (identifier `e`) for
`int`. -/
def renderEncoders : List (String × String) := [("int", "e")]

/-- Model class of the column-subset fixture: `id`, `name`, `size`. -/
def idNameSizeSchema : Schema :=
  .consPrim "id" "str" .SHAPE_SINGLETON []
    (.consPrim "name" "str" .SHAPE_SINGLETON []
      (.consPrim "size" "int" .SHAPE_SINGLETON [] .nil))

/-- An instance of `idNameSizeSchema`. -/
def idNameSizeRecord : Value :=
  .vModel idNameSizeSchema [("id", .vStr "1"), ("name", .vStr "a"), ("size", .vInt 3)]

/-- A two-field pure-scalar optional string schema for the round-trip witness. -/
def csvPairSchema : Schema :=
  .consPrim "a" "str" .SHAPE_SINGLETON []
    (.consPrim "b" "str" .SHAPE_SINGLETON [] .nil)

/-- Spec-side description of the failing rows of a CSV ingest: the (line number,
validation detail) of every data row whose Record construction fails, in row order;
`ln` is the line number of the first row of `rows`. -/
def rowFailures {α : Type} (mk : List (String × Option String) → Except String α)
    (header : List String) (ln : Nat) (rows : List (List String)) : List (Nat × String) :=
  (rows.enumFrom ln).filterMap (fun p =>
    match mk (normalizeRow header p.2) with
    | .error e => some (p.1, e)
    | .ok _ => none)

/-- The aggregate error `read_models_from_csv` builds from a failing row's line number and
validation detail. -/
def mkRowError (pathStr : String) (q : Nat × String) : CSVValidationError :=
  ⟨"Bad data in row " ++ toString q.1 ++ " of " ++ pathStr ++ "\n" ++ q.2, q.1⟩

/-! ## Theorems -/

/-! ### The include loop of `get_fields` -/

/-- When every include entry has at least one match, the loop yields exactly the
concatenation of each entry's matches, in entry order. -/
theorem get_fields_loop_eq_flatMap (fields : List String) :
    ∀ inc : List String, (∀ i ∈ inc, entryMatches fields i ≠ []) →
      get_fields_loop fields inc = .ok (inc.flatMap (entryMatches fields))
  | [], _ => rfl
  | i :: rest, h => by
      have hi : entryMatches fields i ≠ [] := h i (by simp)
      have ih := get_fields_loop_eq_flatMap fields rest (fun j hj => h j (by simp [hj]))
      simp [get_fields_loop, hi, ih, List.isEmpty_iff, List.flatMap_cons, Except.map]

/-- When some include entry has no match, the loop fails with a `ValueError` carrying such
an entry and the full field list. -/
theorem get_fields_loop_error (fields : List String) :
    ∀ inc : List String, (∃ i ∈ inc, entryMatches fields i = []) →
      ∃ j ∈ inc, entryMatches fields j = [] ∧
        get_fields_loop fields inc = .error (.valueError j fields)
  | [], h => absurd h (by simp)
  | i :: rest, h => by
      by_cases hi : entryMatches fields i = []
      · exact ⟨i, by simp, hi, by simp [get_fields_loop, List.isEmpty_iff, hi]⟩
      · have hrest : ∃ j ∈ rest, entryMatches fields j = [] := by
          rcases h with ⟨k, hk, hke⟩
          rcases List.mem_cons.mp hk with rfl | hk'
          · exact absurd hke hi
          · exact ⟨k, hk', hke⟩
        obtain ⟨j, hj, hje, heq⟩ := get_fields_loop_error fields rest hrest
        exact ⟨j, by simp [hj], hje,
          by simp [get_fields_loop, List.isEmpty_iff, hi, heq, Except.map]⟩

/-- C6 (confirmed): for a non-empty include list whose entries all match at least one
field, `get_fields` succeeds and yields exactly the concatenation, in include-entry order,
of each entry's matches — a wildcard entry contributing every field that starts with the
entry stripped of its asterisks (in Schema order), an exact entry contributing itself
once. -/
theorem get_fields_include_spec (model : Schema) (inc : List String) (flat : Bool)
    (hne : inc ≠ [])
    (hall : ∀ i ∈ inc,
      entryMatches (if flat then flatten_fields model else names model) i ≠ []) :
    get_fields model (some inc) flat =
      .ok (inc.flatMap (entryMatches (if flat then flatten_fields model else names model))) := by
  match inc, hne with
  | i :: rest, _ =>
    simpa [get_fields] using
      get_fields_loop_eq_flatMap (if flat then flatten_fields model else names model)
        (i :: rest) hall

/-- Witness for C6 — the spec's wildcard scenario: fields `event.id`, `file.name`,
`file.size` with `include=["file.*"]`, `flat=True` yield `["file.name", "file.size"]`
only. -/
theorem get_fields_include_spec_witness :
    (["file.*"] ≠ ([] : List String)) ∧
    (∀ i ∈ ["file.*"],
      entryMatches (if true then flatten_fields eventFileSchema else names eventFileSchema) i ≠ []) ∧
    get_fields eventFileSchema (some ["file.*"]) true =
      .ok (["file.*"].flatMap
        (entryMatches (if true then flatten_fields eventFileSchema else names eventFileSchema))) ∧
    get_fields eventFileSchema (some ["file.*"]) true = .ok ["file.name", "file.size"] :=
  ⟨by decide, by decide,
   get_fields_include_spec eventFileSchema ["file.*"] true (by decide) (by decide), rfl⟩

/-- C7 (confirmed): an include list containing an entry that matches no field makes
`get_fields` fail with a `ValueError` carrying an offending entry together with the
complete valid-field list — no entry is silently dropped. -/
theorem get_fields_unresolvable_include (model : Schema) (inc : List String) (flat : Bool)
    (i : String) (hi : i ∈ inc)
    (hbad : entryMatches (if flat then flatten_fields model else names model) i = []) :
    ∃ j ∈ inc, entryMatches (if flat then flatten_fields model else names model) j = [] ∧
      get_fields model (some inc) flat =
        .error (.valueError j (if flat then flatten_fields model else names model)) := by
  match inc, hi with
  | a :: rest, hi =>
    obtain ⟨j, hj, hje, heq⟩ :=
      get_fields_loop_error (if flat then flatten_fields model else names model) (a :: rest)
        ⟨i, hi, hbad⟩
    exact ⟨j, hj, hje, by simpa [get_fields] using heq⟩

/-- Witness for C7: the entry `bogus.*` matches nothing in the event/file schema and the
error carries it along with all three valid flattened field names. -/
theorem get_fields_unresolvable_include_witness :
    ("bogus.*" ∈ ["bogus.*"]) ∧
    (entryMatches (if true then flatten_fields eventFileSchema else names eventFileSchema)
        "bogus.*" = []) ∧
    (∃ j ∈ ["bogus.*"],
      entryMatches (if true then flatten_fields eventFileSchema else names eventFileSchema) j = [] ∧
      get_fields eventFileSchema (some ["bogus.*"]) true =
        .error (.valueError j
          (if true then flatten_fields eventFileSchema else names eventFileSchema))) ∧
    get_fields eventFileSchema (some ["bogus.*"]) true =
      .error (.valueError ("bogus.*") ["event.id", "file.name", "file.size"]) :=
  ⟨by decide, by decide,
   get_fields_unresolvable_include eventFileSchema ["bogus.*"] true "bogus.*" (by decide)
     (by decide), rfl⟩

/-- C10 (confirmed): matches are never merged across include entries — every field path
occurs in the output once per entry that matches it, so the multiplicity of a field in the
output is the sum of its multiplicities over the entries and duplicates are possible. -/
theorem get_fields_no_dedup (model : Schema) (inc : List String) (flat : Bool) (f : String)
    (hne : inc ≠ [])
    (hall : ∀ i ∈ inc,
      entryMatches (if flat then flatten_fields model else names model) i ≠ []) :
    ∃ out, get_fields model (some inc) flat = .ok out ∧
      out.count f =
        (inc.map (fun i =>
          (entryMatches (if flat then flatten_fields model else names model) i).count f)).sum := by
  match inc, hne with
  | i :: rest, _ =>
    refine ⟨_, by
      simpa [get_fields] using
        get_fields_loop_eq_flatMap (if flat then flatten_fields model else names model)
          (i :: rest) hall, ?_⟩
    simpa [Function.comp] using
      List.count_flatMap (i :: rest)
        (entryMatches (if flat then flatten_fields model else names model)) f

/-- Witness for C10: `include=["file.name", "file.*"]` yields `file.name` twice (once for
the exact entry and once for the wildcard). -/
theorem get_fields_no_dedup_witness :
    (["file.name", "file.*"] ≠ ([] : List String)) ∧
    (∀ i ∈ ["file.name", "file.*"],
      entryMatches (if true then flatten_fields eventFileSchema else names eventFileSchema) i ≠ []) ∧
    (∃ out, get_fields eventFileSchema (some ["file.name", "file.*"]) true = .ok out ∧
      out.count "file.name" =
        (["file.name", "file.*"].map (fun i =>
          (entryMatches (if true then flatten_fields eventFileSchema else names eventFileSchema)
            i).count "file.name")).sum) ∧
    get_fields eventFileSchema (some ["file.name", "file.*"]) true =
      .ok ["file.name", "file.name", "file.size"] ∧
    (["file.name", "file.name", "file.size"].count "file.name" = 2) :=
  ⟨by decide, by decide,
   get_fields_no_dedup eventFileSchema ["file.name", "file.*"] true "file.name" (by decide)
     (by decide), rfl, by decide⟩

/-! ### The Schema Walker -/

/-- Every Field Path the spec-side walker produces has at least one component. -/
theorem specFlattenLeafPaths_ne_nil :
    ∀ S : Schema, ∀ p ∈ specFlattenLeafPaths S, p ≠ []
  | .nil, p, hp => absurd hp (by simp [specFlattenLeafPaths])
  | .consPrim n t sh ex rest, p, hp => by
      rcases List.mem_cons.mp hp with rfl | hp'
      · simp
      · exact specFlattenLeafPaths_ne_nil rest p hp'
  | .consModel n sub sh ex rest, p, hp => by
      simp only [specFlattenLeafPaths] at hp
      rcases List.mem_append.mp hp with hp' | hp'
      · by_cases hsh : sh = Shape.SHAPE_SINGLETON
        · rw [if_pos hsh] at hp'
          obtain ⟨q, _, rfl⟩ := List.mem_map.mp hp'
          simp
        · rw [if_neg hsh] at hp'
          rcases List.mem_singleton.mp hp' with rfl
          simp
      · exact specFlattenLeafPaths_ne_nil rest p hp'

/-- Helper for C5 and C1: the source's `flatten_fields` is exactly the spec walker's
component paths, dot-joined. -/
theorem flatten_eq_dotJoin_spec :
    ∀ S : Schema, flatten_fields S = (specFlattenLeafPaths S).map dotJoin
  | .nil => rfl
  | .consPrim n t sh ex rest => by
      simp [flatten_fields, specFlattenLeafPaths, dotJoin,
        flatten_eq_dotJoin_spec rest]
  | .consModel n sub sh ex rest => by
      by_cases hsh : sh = Shape.SHAPE_SINGLETON
      · subst hsh
        have hsub := flatten_eq_dotJoin_spec sub
        have hrest := flatten_eq_dotJoin_spec rest
        simp only [flatten_fields, specFlattenLeafPaths, hsub, hrest,
          List.map_append, List.map_map, reduceIte]
        congr 1
        refine List.map_congr_left (fun p hp => ?_)
        match p, specFlattenLeafPaths_ne_nil sub p hp with
        | c :: cs, _ => simp [dotJoin, Function.comp]
      · simp [flatten_fields, specFlattenLeafPaths, if_neg hsh, dotJoin,
          flatten_eq_dotJoin_spec rest]

/-- C5 (confirmed): `flatten_fields` yields exactly the dot-joined paths of every leaf
reachable through singular nested fields, depth-first in field-declaration order, and
yields each collection-of-nested field as a single non-expanded path. -/
theorem flatten_fields_spec_paths (S : Schema) :
    flatten_fields S = (specFlattenLeafPaths S).map dotJoin :=
  flatten_eq_dotJoin_spec S

/-! ### CSV ingest (read side) -/

/-- Cons equation of `rowFailures` for a failing head row. -/
theorem rowFailures_cons_error {α : Type} (mk : List (String × Option String) → Except String α)
    (header : List String) (ln : Nat) (row : List String) (rest : List (List String))
    (e : String) (h : mk (normalizeRow header row) = .error e) :
    rowFailures mk header ln (row :: rest) = (ln, e) :: rowFailures mk header (ln + 1) rest := by
  simp [rowFailures, List.enumFrom_cons, List.filterMap_cons, h]

/-- Cons equation of `rowFailures` for a valid head row. -/
theorem rowFailures_cons_ok {α : Type} (mk : List (String × Option String) → Except String α)
    (header : List String) (ln : Nat) (row : List String) (rest : List (List String))
    (m : α) (h : mk (normalizeRow header row) = .ok m) :
    rowFailures mk header ln (row :: rest) = rowFailures mk header (ln + 1) rest := by
  simp [rowFailures, List.enumFrom_cons, List.filterMap_cons, h]

/-- The read loop yields one Record per valid row in order, and the remembered error (if
any row failed) is built from the LAST failing row, carrying `reader.line_num` for that
row. -/
theorem read_models_loop_spec {α : Type} (mk : List (String × Option String) → Except String α)
    (pathStr : String) (header : List String) :
    ∀ (ln : Nat) (rows : List (List String)),
      read_models_loop mk pathStr header ln rows =
        (rows.filterMap (fun row => (mk (normalizeRow header row)).toOption),
         (rowFailures mk header ln rows).getLast?.map (mkRowError pathStr))
  | _, [] => rfl
  | ln, row :: rest => by
      have ih := read_models_loop_spec mk pathStr header (ln + 1) rest
      rcases hmk : mk (normalizeRow header row) with e | m
      · rcases hq : (rowFailures mk header (ln + 1) rest).getLast? with _ | q
        all_goals
          simp only [read_models_loop, ih, hmk, List.filterMap_cons, Except.toOption,
            rowFailures_cons_error mk header ln row rest e hmk, hq, List.getLast?_cons,
            Option.map_none', Option.getD_none, Option.getD_some, Option.map_some']
        all_goals exact rfl
      · simp only [read_models_loop, ih, hmk, List.filterMap_cons, Except.toOption,
          rowFailures_cons_ok mk header ln row rest m hmk]

/-- C2 (corrected): `read_models_from_csv` never aborts on a failing row — it yields a
Record for every valid row, in order, and after the source is exhausted surfaces exactly
one aggregate error; but that error is built from the LAST failure encountered (each
failure overwrites the remembered one), and the number it carries is `reader.line_num` —
the 1-based line in the file counting the header, i.e. data row `i` is reported as row
`i + 1`. -/
theorem read_models_aggregate_spec {α : Type}
    (mk : List (String × Option String) → Except String α) (pathStr : String)
    (header : List String) (rows : List (List String)) :
    read_models_from_csv mk pathStr ⟨header :: rows⟩ =
      (rows.filterMap (fun row => (mk (normalizeRow header row)).toOption),
       (rowFailures mk header 2 rows).getLast?.map (mkRowError pathStr)) :=
  read_models_loop_spec mk pathStr header 2 rows

/-- Counterexample to C2 as stated: a 3-data-row CSV whose rows 1 and 2 both fail
validation.  The first failure is data row 1 (`reader.line_num` 2), yet the surfaced error
carries row number 3 and the validation detail of the LAST failing row (`y`), not the
first (`x`) — so the error is neither "the first failure encountered" nor numbered with
the first failing row under either row-counting convention (the valid row 3 is still
yielded). -/
theorem read_models_first_error_cex :
    read_models_from_csv mkNatField "test.csv" ⟨[["n"], ["x"], ["y"], ["3"]]⟩ =
      ([3], some ⟨"Bad data in row 3 of test.csv\ninvalid int: y", 3⟩) ∧
    mkNatField (normalizeRow ["n"] ["x"]) = .error ("invalid int: x") ∧
    (3 : Nat) ≠ 1 ∧ (3 : Nat) ≠ 2 :=
  ⟨rfl, rfl, by decide, by decide⟩

/-! ### CSV export (write side) -/

/-- Every key the pydantic field-to-value mapping emits is a declared field name of the
model's class. -/
theorem pydantic_dict_keys (cls : Schema) (attrs : List (String × Value))
    (cols : IncludeArg) :
    ∀ kv ∈ pydantic_dict_items (.vModel cls attrs) cols, kv.1 ∈ names cls := by
  intro kv hkv
  simp only [pydantic_dict_items, List.mem_filterMap] at hkv
  obtain ⟨n, hn, hf⟩ := hkv
  by_cases hc : colsAllow cols n = true
  · rw [if_pos hc] at hf
    cases hf
    exact hn
  · rw [if_neg hc] at hf
    cases hf

/-- For an acceptable `include` argument (`None` or a set), `.dict` succeeds with the
field-to-value mapping. -/
theorem pydantic_dict_ok (m : Value) (cols : IncludeArg) (hc : cols ≠ .rawEmptyList) :
    pydantic_dict m cols = .ok (pydantic_dict_items m cols) := by
  cases cols with
  | noneInclude => rfl
  | rawEmptyList => exact absurd rfl hc
  | includeSet cs => rfl

/-- `DictWriter.writerow` never hits the extras check on a pydantic row of the class the
fieldnames came from, and produces one cell per field name. -/
theorem dictWriterRow_pydantic (cls : Schema) (attrs : List (String × Value))
    (cols : IncludeArg) :
    dictWriterRow (names cls) (pydantic_dict_items (.vModel cls attrs) cols) =
      .ok ((names cls).map (fun h =>
        match alookup (pydantic_dict_items (.vModel cls attrs) cols) h with
        | some v => pyStr v
        | none => "")) := by
  unfold dictWriterRow
  rw [if_neg]
  simp only [List.any_eq_true, Bool.not_eq_true', not_exists, not_and]
  intro kv hkv
  simp only [Bool.not_eq_false]
  simpa [List.contains] using
    List.elem_eq_true_of_mem (pydantic_dict_keys cls attrs cols kv hkv)

/-- The row loop of `write_models_to_csv` on Records of one class, with an acceptable
`include` argument. -/
theorem write_models_rows_spec (cls : Schema) (cols : IncludeArg)
    (hc : cols ≠ .rawEmptyList) :
    ∀ ms : List Value, (∀ m ∈ ms, ∃ attrs, m = .vModel cls attrs) →
      write_models_rows (names cls) cols ms =
        .ok (ms.map (fun m =>
          (names cls).map (fun h =>
            match alookup (pydantic_dict_items m cols) h with
            | some v => pyStr v
            | none => "")))
  | [], _ => rfl
  | m :: rest, h => by
      obtain ⟨attrs, rfl⟩ := h m (by simp)
      have ih := write_models_rows_spec cls cols hc rest (fun x hx => h x (by simp [hx]))
      simp only [write_models_rows, pydantic_dict_ok _ cols hc,
        dictWriterRow_pydantic cls attrs cols, ih, List.map_cons, bind, Except.bind]

/-- With the raw empty list as `include`, the very first `.dict` call raises
`TypeError`. -/
theorem write_models_rows_empty_cols (fieldnames : List String) (m : Value)
    (rest : List Value) :
    write_models_rows fieldnames .rawEmptyList (m :: rest) =
      .error (.typeError ("Unexpected type of exclude value <class 'list'>")) := rfl

/-- Helper shared by the column-subset and round-trip results: on a non-empty sequence of
Records of one class and a `columns` argument that is not the falsy empty list,
`write_models_to_csv` emits the class's full field list as header and one writer row per
Record. -/
theorem write_models_to_csv_of_class (cls : Schema) (ms : List Value)
    (columns : Option (List String)) (hne : ms ≠ [])
    (hcols : normalizeColumns columns ≠ .rawEmptyList)
    (hall : ∀ m ∈ ms, ∃ attrs, m = .vModel cls attrs) :
    write_models_to_csv ms columns =
      .ok ⟨names cls,
           ms.map (fun m =>
             (names cls).map (fun h =>
               match alookup (pydantic_dict_items m (normalizeColumns columns)) h with
               | some v => pyStr v
               | none => ""))⟩ := by
  match ms, hne with
  | first :: rest, _ =>
    obtain ⟨attrs, rfl⟩ := hall first (by simp)
    have hrows :=
      write_models_rows_spec cls (normalizeColumns columns) hcols
        (Value.vModel cls attrs :: rest) hall
    simp only [write_models_to_csv, hrows, bind, Except.bind]

/-- C3 (corrected): for a non-empty sequence of Records of one class, the header
`write_models_to_csv` emits is ALWAYS every field of the first Record's class in declared
order — an explicit column subset does not shrink it; the subset only restricts the data
rows: a cell whose field is outside the subset is left empty, values appear only under the
included columns.  An EMPTY column list is python-falsy: it skips the `set()` conversion,
the raw list reaches pydantic `.dict(include=[])`, and the write raises `TypeError` at the
first row (after the header has been emitted) instead of exporting anything. -/
theorem write_models_columns_spec (cls : Schema) (ms : List Value)
    (columns : Option (List String)) (hne : ms ≠ [])
    (hall : ∀ m ∈ ms, ∃ attrs, m = .vModel cls attrs) :
    (columns ≠ some [] →
      write_models_to_csv ms columns =
        .ok ⟨names cls,
             ms.map (fun m =>
               (names cls).map (fun h =>
                 match alookup (pydantic_dict_items m (normalizeColumns columns)) h with
                 | some v => pyStr v
                 | none => ""))⟩) ∧
    (columns = some [] →
      write_models_to_csv ms columns =
        .error (.typeError ("Unexpected type of exclude value <class 'list'>"))) := by
  constructor
  · intro hcols
    refine write_models_to_csv_of_class cls ms columns hne ?_ hall
    match columns, hcols with
    | none, _ => exact fun h => IncludeArg.noConfusion h
    | some [], hcols => exact absurd rfl hcols
    | some (c :: cs), _ => exact fun h => IncludeArg.noConfusion h
  · intro hcols
    subst hcols
    match ms, hne with
    | first :: rest, _ =>
      obtain ⟨attrs, rfl⟩ := hall first (by simp)
      simp only [write_models_to_csv, normalizeColumns,
        write_models_rows_empty_cols (names cls) (Value.vModel cls attrs) rest, bind,
        Except.bind]

/-- Witness for C3 (amended form) at the spec's own scenario input, plus the empty-subset
`TypeError` at a concrete input. -/
theorem write_models_columns_spec_witness :
    (([idNameSizeRecord] : List Value) ≠ []) ∧
    write_models_to_csv [idNameSizeRecord] (some ["id", "name"]) =
      .ok ⟨names idNameSizeSchema,
           [idNameSizeRecord].map (fun m =>
             (names idNameSizeSchema).map (fun h =>
               match alookup (pydantic_dict_items m
                   (normalizeColumns (some ["id", "name"]))) h with
               | some v => pyStr v
               | none => ""))⟩ ∧
    write_models_to_csv [idNameSizeRecord] (some []) =
      .error (.typeError ("Unexpected type of exclude value <class 'list'>")) := by
  have hall : ∀ m ∈ ([idNameSizeRecord] : List Value), ∃ attrs, m = .vModel idNameSizeSchema attrs :=
    fun m hm => ⟨[("id", .vStr "1"), ("name", .vStr "a"), ("size", .vInt 3)],
      by rw [List.mem_singleton.mp hm]; rfl⟩
  exact ⟨by simp,
    (write_models_columns_spec idNameSizeSchema [idNameSizeRecord] (some ["id", "name"])
      (by simp) hall).1 (by simp),
    (write_models_columns_spec idNameSizeSchema [idNameSizeRecord] (some [])
      (by simp) hall).2 rfl⟩

/-- Counterexample to C3 as stated: Records with fields `{id, name, size}` and
`columns={"id","name"}` produce the header `id,name,size` — NOT the claimed `id,name` —
while the `size` cell of each data row is emptied. -/
theorem write_models_header_cex :
    write_models_to_csv [idNameSizeRecord] (some ["id", "name"]) =
      .ok ⟨["id", "name", "size"], [["1", "a", ""]]⟩ ∧
    ["id", "name", "size"] ≠ ["id", "name"] :=
  ⟨rfl, by decide⟩

/-- C9 (code bug): `write_dict_to_csv` passes the first DICT to `flatten_fields` — the
model-class walker — and then asks the resulting generator object for `.keys()`, so for
every non-empty input it raises `AttributeError` before writing anything; the nested
flattening and single header write the spec describes never happen. -/
theorem write_dict_to_csv_always_fails (d : List (String × Value))
    (ds : List (List (String × Value))) :
    write_dict_to_csv (d :: ds) none =
      .error (.attributeError ("generator object has no attribute keys")) := rfl

/-! ### Formatted iteration (render precedence) -/

/-- The name component of a rendered pair is the field path it was produced for. -/
theorem renderPair_fst (env : String → Value → Value) (json_encoders : List (String × String))
    (render : Option String) (name : String) (vf : Value × Option MField) :
    (renderPair env json_encoders render name vf).1 = name := by
  unfold renderPair
  split
  · rfl
  · split <;> rfl

/-- The value component of a rendered pair is exactly the spec-side three-tier policy
applied to the raw value and field metadata. -/
theorem renderPair_snd (env : String → Value → Value) (json_encoders : List (String × String))
    (render : Option String) (name : String) (vf : Value × Option MField) :
    (renderPair env json_encoders render name vf).2 =
      specRender env json_encoders vf.2 render vf.1 := by
  rcases render with _ | r
  · simp [renderPair, specRender, specTypeDefault, pyTruthyOptStr]
    split <;> rfl
  · rcases hf : vf.2 with _ | f
    · simp [renderPair, specRender, specTypeDefault, pyTruthyOptStr, hf]
      split <;> rfl
    · by_cases hre : r = ""
      · subst hre
        simp [renderPair, specRender, specTypeDefault, pyTruthyOptStr, hf]
        split <;> rfl
      · have ht : pyTruthyOptStr (some r) = true := by simp [pyTruthyOptStr, hre]
        unfold renderPair specRender specTypeDefault
        rw [hf, ht]
        simp only [reduceIte]
        rw [if_pos hre]
        rcases halk : alookup f.extra r with _ | rid
        · rcases h2 : alookup json_encoders (typeName vf.1) with _ | eid <;> rfl
        · rfl

/-- Each pair the formatting loop emits is the resolved raw value rendered by the
three-tier policy (with the truthiness amendment). -/
theorem imfLoop_spec (env : String → Value → Value) (json_encoders : List (String × String))
    (model : Value) (render : Option String) :
    ∀ (fields : List String) (out : List (String × Value)),
      imfLoop env json_encoders model render fields = .ok out →
      ∀ p ∈ out, ∃ raw fld,
        get_field_value_and_info model (pySplitDot p.1) = .ok (raw, fld) ∧
        p.2 = specRender env json_encoders fld render raw
  | [], out, h => by
      cases h
      intro p hp
      cases hp
  | name :: rest, out, h => by
      rcases hvf : get_field_value_and_info model (pySplitDot name) with e | vf
      · rw [imfLoop, hvf] at h
        cases h
      · rcases htail : imfLoop env json_encoders model render rest with e | tail
        · rw [imfLoop, hvf] at h
          simp only [bind, Except.bind, htail] at h
          exact Except.noConfusion h
        · rw [imfLoop, hvf] at h
          simp only [bind, Except.bind, htail] at h
          have hout := Except.ok.inj h
          intro p hp
          rw [← hout] at hp
          rcases List.mem_cons.mp hp with rfl | hp'
          · refine ⟨vf.1, vf.2, ?_, ?_⟩
            · rw [renderPair_fst]
              cases vf
              exact hvf
            · rw [renderPair_snd]
          · exact imfLoop_spec env json_encoders model render rest tail htail p hp'

/-- C4 (corrected): for every field pair `iter_model_formatted` emits, the emitted value
is the three-tier rendering of the resolved raw value — the hint transformation whenever a
NON-EMPTY hint name was requested and the field metadata declares a transformation under
it (never the type default in that case), else the Schema root's type encoder for the
value's runtime type, else the raw value unchanged. -/
theorem render_precedence_spec (env : String → Value → Value)
    (json_encoders : List (String × String)) (model : Value) (inc : Option (List String))
    (flat : Bool) (render : Option String) (out : List (String × Value))
    (h : iter_model_formatted env json_encoders model inc flat render = .ok out) :
    ∀ p ∈ out, ∃ raw fld,
      get_field_value_and_info model (pySplitDot p.1) = .ok (raw, fld) ∧
      p.2 = specRender env json_encoders fld render raw := by
  match model, h with
  | .vModel cls attrs, h =>
    rcases hgf : get_fields cls inc flat with e | fields
    · rw [iter_model_formatted, hgf] at h
      simp only [bind, Except.bind] at h
      exact Except.noConfusion h
    · rw [iter_model_formatted, hgf] at h
      simp only [bind, Except.bind] at h
      exact imfLoop_spec env json_encoders (.vModel cls attrs) render fields out h

/-- Witness for C4 (amended form): a field with both a `table` hint and an `int` type
encoder, iterated with `render="table"`, emits the hint's transformation. -/
theorem render_precedence_spec_witness :
    iter_model_formatted renderEnv renderEncoders renderModel none false (some "table") =
      .ok [("f", Value.vStr "hint")] ∧
    (∃ raw fld,
      get_field_value_and_info renderModel (pySplitDot "f") = .ok (raw, fld) ∧
      Value.vStr "hint" = specRender renderEnv renderEncoders fld (some "table") raw) :=
  ⟨rfl,
   render_precedence_spec renderEnv renderEncoders renderModel none false (some "table")
     [("f", Value.vStr "hint")] rfl ("f", Value.vStr "hint") (by simp)⟩

/-- Counterexample to C4 as stated: requesting the render hint name `""` on a field whose
metadata DOES declare a transformation under `""` does not apply it — python truthiness of
`if render and field_renderer` discards the empty name, and the type-based `int` encoder
is applied instead (`enc`), not the declared hint transformation (`hint`). -/
theorem render_empty_hint_cex :
    iter_model_formatted renderEnv renderEncoders renderModel none false (some "") =
      .ok [("f", Value.vStr "enc")] ∧
    get_field_value_and_info renderModel (pySplitDot "f") =
      .ok (.vInt 5, some ⟨.prim "int", .SHAPE_SINGLETON, [("table", "h"), ("", "h")]⟩) ∧
    alookup [("table", "h"), ("", "h")] "" = some "h" ∧
    renderEnv "h" (.vInt 5) = .vStr "hint" ∧
    Value.vStr "enc" ≠ Value.vStr "hint" :=
  ⟨rfl, rfl, rfl, rfl, by simp⟩

/-! ### Field Resolver totality -/

/-- A successful `__fields__` lookup means the name is declared. -/
theorem lookupField_mem_names :
    ∀ (S : Schema) (m : String) (mf : MField), lookupField S m = some mf → m ∈ names S
  | .nil, m, mf, h => by simp [lookupField] at h
  | .consPrim n t sh ex rest, m, mf, h => by
      by_cases hn : n = m
      · subst hn
        simp [names]
      · rw [lookupField, if_neg hn] at h
        exact List.mem_cons.mpr (Or.inr (lookupField_mem_names rest m mf h))
  | .consModel n s sh ex rest, m, mf, h => by
      by_cases hn : n = m
      · subst hn
        simp [names]
      · rw [lookupField, if_neg hn] at h
        exact List.mem_cons.mpr (Or.inr (lookupField_mem_names rest m mf h))

/-- Well-formedness is inherited by a looked-up nested model class. -/
theorem wf_sub_of_lookup :
    ∀ (S : Schema) (m : String) (sub : Schema) (sh : Shape) (ex : List (String × String)),
      wfNames S = true → lookupField S m = some ⟨.model sub, sh, ex⟩ → wfNames sub = true
  | .nil, m, sub, sh, ex, _, h => by simp [lookupField] at h
  | .consPrim n t sh' ex' rest, m, sub, sh, ex, hwf, h => by
      simp only [wfNames, Bool.and_eq_true] at hwf
      by_cases hn : n = m
      · rw [lookupField, if_pos hn] at h
        simp [MField.mk.injEq] at h
      · rw [lookupField, if_neg hn] at h
        exact wf_sub_of_lookup rest m sub sh ex hwf.2 h
  | .consModel n s sh' ex' rest, m, sub, sh, ex, hwf, h => by
      simp only [wfNames, Bool.and_eq_true] at hwf
      by_cases hn : n = m
      · rw [lookupField, if_pos hn] at h
        have hs : s = sub := by
          have := Option.some.inj h
          have h2 := congrArg MField.type_ this
          simpa using h2
        subst hs
        exact hwf.1.2
      · rw [lookupField, if_neg hn] at h
        exact wf_sub_of_lookup rest m sub sh ex hwf.2 h

/-- Membership decomposition for spec walker paths over a well-formed schema: a path is
either a single declared leaf name, or a declared singular-nested field name followed by a
walker path of the child class. -/
theorem specFlatten_mem_cases :
    ∀ (S : Schema) (comps : List String), wfNames S = true →
      comps ∈ specFlattenLeafPaths S →
      (∃ n mf, comps = [n] ∧ lookupField S n = some mf) ∨
      (∃ n sub ex comps', comps = n :: comps' ∧ comps' ∈ specFlattenLeafPaths sub ∧
        lookupField S n = some ⟨.model sub, .SHAPE_SINGLETON, ex⟩)
  | .nil, comps, _, hmem => by simp [specFlattenLeafPaths] at hmem
  | .consPrim n t sh ex rest, comps, hwf, hmem => by
      simp only [wfNames, Bool.and_eq_true] at hwf
      obtain ⟨⟨hvn, hnc⟩, hwrest⟩ := hwf
      rcases List.mem_cons.mp hmem with rfl | hmem'
      · exact Or.inl ⟨n, ⟨.prim t, sh, ex⟩, rfl, by simp [lookupField]⟩
      · have hlift : ∀ m : String, m ∈ names rest → lookupField (.consPrim n t sh ex rest) m = lookupField rest m := by
          intro m hm
          have hmn : n ≠ m := by
            intro h
            subst h
            rw [Bool.not_eq_true'] at hnc
            exact absurd (List.elem_eq_true_of_mem hm) (by simpa [List.contains] using hnc)
          simp [lookupField, hmn]
        rcases specFlatten_mem_cases rest comps hwrest hmem' with
          ⟨m, mf, rfl, hlk⟩ | ⟨m, sub, ex', comps', rfl, hm, hlk⟩
        · exact Or.inl ⟨m, mf, rfl, by
            rw [hlift m (lookupField_mem_names rest m mf hlk)]
            exact hlk⟩
        · exact Or.inr ⟨m, sub, ex', comps', rfl, hm, by
            rw [hlift m (lookupField_mem_names rest m _ hlk)]
            exact hlk⟩
  | .consModel n s sh ex rest, comps, hwf, hmem => by
      simp only [wfNames, Bool.and_eq_true] at hwf
      obtain ⟨⟨⟨hvn, hnc⟩, hwsub⟩, hwrest⟩ := hwf
      simp only [specFlattenLeafPaths] at hmem
      rcases List.mem_append.mp hmem with hl | hr
      · by_cases hsh : sh = Shape.SHAPE_SINGLETON
        · subst hsh
          rw [if_pos rfl] at hl
          obtain ⟨p, hp, rfl⟩ := List.mem_map.mp hl
          exact Or.inr ⟨n, s, ex, p, rfl, hp, by simp [lookupField]⟩
        · rw [if_neg hsh] at hl
          rcases List.mem_singleton.mp hl with rfl
          exact Or.inl ⟨n, ⟨.model s, sh, ex⟩, rfl, by simp [lookupField]⟩
      · have hlift : ∀ m : String, m ∈ names rest →
            lookupField (.consModel n s sh ex rest) m = lookupField rest m := by
          intro m hm
          have hmn : n ≠ m := by
            intro h
            subst h
            rw [Bool.not_eq_true'] at hnc
            exact absurd (List.elem_eq_true_of_mem hm) (by simpa [List.contains] using hnc)
          simp [lookupField, hmn]
        rcases specFlatten_mem_cases rest comps hwrest hr with
          ⟨m, mf, rfl, hlk⟩ | ⟨m, sub, ex', comps', rfl, hm, hlk⟩
        · exact Or.inl ⟨m, mf, rfl, by
            rw [hlift m (lookupField_mem_names rest m mf hlk)]
            exact hlk⟩
        · exact Or.inr ⟨m, sub, ex', comps', rfl, hm, by
            rw [hlift m (lookupField_mem_names rest m _ hlk)]
            exact hlk⟩

/-- Extraction of the field-wise conformance fact for a looked-up field: the attribute is
present, and for a singular nested field it is either absent or a conforming child
Record. -/
theorem conforms_lookup :
    ∀ (S : Schema) (attrs : List (String × Value)), ConformsAttrs S attrs →
      ∀ (n : String) (mf : MField), lookupField S n = some mf →
      ∃ v, alookup attrs n = some v ∧
        (∀ sub ex, mf = ⟨.model sub, .SHAPE_SINGLETON, ex⟩ → v = .vNone ∨ ConformsV sub v)
  | .nil, attrs, _, n, mf, h => by simp [lookupField] at h
  | .consPrim m t sh ex rest, attrs, h, n, mf, hlk => by
      cases h with
      | prim _ _ _ _ _ _ v0 hv0 hrest =>
        by_cases hm : m = n
        · subst hm
          rw [lookupField, if_pos rfl] at hlk
          refine ⟨v0, hv0, fun sub ex' heq => ?_⟩
          rw [← Option.some.inj hlk] at heq
          simp [MField.mk.injEq] at heq
        · rw [lookupField, if_neg hm] at hlk
          exact conforms_lookup rest attrs hrest n mf hlk
  | .consModel m s sh ex rest, attrs, h, n, mf, hlk => by
      by_cases hm : m = n
      · subst hm
        rw [lookupField, if_pos rfl] at hlk
        rw [← Option.some.inj hlk]
        cases h with
        | modelNone _ _ _ _ _ _ hv0 hrest =>
            exact ⟨.vNone, hv0, fun sub ex' heq => Or.inl rfl⟩
        | modelSome _ _ _ _ _ v0 hv0 hcv hrest =>
            refine ⟨v0, hv0, fun sub ex' heq => ?_⟩
            have hs : s = sub := by
              have h2 := congrArg MField.type_ heq
              simpa using h2
            subst hs
            exact Or.inr hcv
        | modelList _ _ _ _ _ elems hv0 hrest =>
            refine ⟨.vList elems, hv0, fun sub ex' heq => ?_⟩
            have h2 := congrArg MField.shape heq
            simp at h2
      · rw [lookupField, if_neg hm] at hlk
        cases h with
        | modelNone _ _ _ _ _ _ hv0 hrest => exact conforms_lookup rest attrs hrest n mf hlk
        | modelSome _ _ _ _ _ v0 hv0 hcv hrest => exact conforms_lookup rest attrs hrest n mf hlk
        | modelList _ _ _ _ _ elems hv0 hrest => exact conforms_lookup rest attrs hrest n mf hlk

/-- Looking up any declared name in the all-`None` placeholder yields `None`. -/
theorem alookup_constructNone :
    ∀ (S : Schema) (n : String), n ∈ names S → alookup (constructNone S) n = some .vNone
  | .nil, n, hn => by simp [names] at hn
  | .consPrim m t sh ex rest, n, hn => by
      by_cases hm : m = n
      · simp [constructNone, alookup, hm]
      · rcases List.mem_cons.mp hn with rfl | hn'
        · exact absurd rfl hm
        · simp only [constructNone, alookup, if_neg hm]
          exact alookup_constructNone rest n hn'
  | .consModel m s sh ex rest, n, hn => by
      by_cases hm : m = n
      · simp [constructNone, alookup, hm]
      · rcases List.mem_cons.mp hn with rfl | hn'
        · exact absurd rfl hm
        · simp only [constructNone, alookup, if_neg hm]
          exact alookup_constructNone rest n hn'

/-- An attribute map that answers `None` for every declared name is conforming. -/
theorem conformsAttrs_of_all_none :
    ∀ (cur : Schema) (attrs : List (String × Value)),
      (∀ n ∈ names cur, alookup attrs n = some .vNone) → ConformsAttrs cur attrs
  | .nil, attrs, _ => ConformsAttrs.nil attrs
  | .consPrim n t sh ex rest, attrs, h =>
      ConformsAttrs.prim n t sh ex rest attrs .vNone (h n (by simp [names]))
        (conformsAttrs_of_all_none rest attrs (fun m hm => h m (by simp [names, hm])))
  | .consModel n s sh ex rest, attrs, h =>
      ConformsAttrs.modelNone n s sh ex rest attrs (h n (by simp [names]))
        (conformsAttrs_of_all_none rest attrs (fun m hm => h m (by simp [names, hm])))

/-- The synthesized all-`None` placeholder of a class conforms to it. -/
theorem conforms_constructNone (S : Schema) :
    ConformsV S (.vModel S (constructNone S)) :=
  ConformsV.mk S (constructNone S)
    (conformsAttrs_of_all_none S (constructNone S) (fun n hn => alookup_constructNone S n hn))

/-- Resolver totality over component paths: on any conforming Record, every spec walker
path of a well-formed schema resolves to a value together with `some` field metadata. -/
theorem resolve_conforms :
    ∀ (comps : List String) (S : Schema) (R : Value),
      wfNames S = true → ConformsV S R → comps ∈ specFlattenLeafPaths S →
      ∃ v mf, get_field_value_and_info R comps = .ok (v, some mf)
  | [], S, _, _, _, hmem => absurd rfl (specFlattenLeafPaths_ne_nil S [] hmem)
  | [n], S, R, hwf, hc, hmem => by
      cases hc with
      | mk cls attrs hattrs =>
      rcases specFlatten_mem_cases S [n] hwf hmem with
        ⟨m, mf, heq, hlk⟩ | ⟨m, sub, ex, comps', heq, hmem', hlk⟩
      · obtain rfl : n = m := by injection heq
        obtain ⟨v, hv, _⟩ := conforms_lookup S attrs hattrs n mf hlk
        exact ⟨v, mf, by simp [get_field_value_and_info, getattrOpt, hv, hlk]⟩
      · obtain ⟨h1, h2⟩ : n = m ∧ [] = comps' := by
          injection heq with h1 h2
          exact ⟨h1, h2⟩
        rw [← h2] at hmem'
        exact absurd rfl (specFlattenLeafPaths_ne_nil sub [] hmem')
  | n :: c :: tl, S, R, hwf, hc, hmem => by
      cases hc with
      | mk cls attrs hattrs =>
      rcases specFlatten_mem_cases S (n :: c :: tl) hwf hmem with
        ⟨m, mf, heq, hlk⟩ | ⟨m, sub, ex, comps', heq, hmem', hlk⟩
      · simp at heq
      · obtain ⟨rfl, hcomps'⟩ : n = m ∧ c :: tl = comps' := by
          injection heq with h1 h2
          exact ⟨h1, h2⟩
        rw [← hcomps'] at hmem'
        obtain ⟨v, hv, hcond⟩ := conforms_lookup S attrs hattrs n _ hlk
        have hwsub : wfNames sub = true := wf_sub_of_lookup S n sub _ ex hwf hlk
        rcases hcond sub ex rfl with rfl | hcv
        · obtain ⟨v', mf', hres⟩ :=
            resolve_conforms (c :: tl) sub (.vModel sub (constructNone sub)) hwsub
              (conforms_constructNone sub) hmem'
          exact ⟨v', mf', by
            simp [get_field_value_and_info, getattrOpt, hv, hlk, hres]⟩
        · cases hcv with
          | mk cls' attrs' hattrs' =>
          obtain ⟨v', mf', hres⟩ :=
            resolve_conforms (c :: tl) sub (.vModel sub attrs') hwsub
              (ConformsV.mk sub attrs' hattrs') hmem'
          exact ⟨v', mf', by simp [get_field_value_and_info, getattrOpt, hv, hres]⟩

/-- On the all-absent placeholder Record, every spec walker path resolves to `None` with
`some` field metadata. -/
theorem resolve_placeholder :
    ∀ (comps : List String) (S : Schema), wfNames S = true →
      comps ∈ specFlattenLeafPaths S →
      ∃ mf, get_field_value_and_info (.vModel S (constructNone S)) comps =
        .ok (.vNone, some mf)
  | [], S, _, hmem => absurd rfl (specFlattenLeafPaths_ne_nil S [] hmem)
  | [n], S, hwf, hmem => by
      rcases specFlatten_mem_cases S [n] hwf hmem with
        ⟨m, mf, heq, hlk⟩ | ⟨m, sub, ex, comps', heq, hmem', hlk⟩
      · obtain rfl : n = m := by injection heq
        have hv := alookup_constructNone S n (lookupField_mem_names S n mf hlk)
        exact ⟨mf, by simp [get_field_value_and_info, getattrOpt, hv, hlk]⟩
      · obtain ⟨h1, h2⟩ : n = m ∧ [] = comps' := by
          injection heq with h1 h2
          exact ⟨h1, h2⟩
        rw [← h2] at hmem'
        exact absurd rfl (specFlattenLeafPaths_ne_nil sub [] hmem')
  | n :: c :: tl, S, hwf, hmem => by
      rcases specFlatten_mem_cases S (n :: c :: tl) hwf hmem with
        ⟨m, mf, heq, hlk⟩ | ⟨m, sub, ex, comps', heq, hmem', hlk⟩
      · simp at heq
      · obtain ⟨rfl, hcomps'⟩ : n = m ∧ c :: tl = comps' := by
          injection heq with h1 h2
          exact ⟨h1, h2⟩
        rw [← hcomps'] at hmem'
        have hv := alookup_constructNone S n (lookupField_mem_names S n _ hlk)
        have hwsub : wfNames sub = true := wf_sub_of_lookup S n sub _ ex hwf hlk
        obtain ⟨mf', hres⟩ := resolve_placeholder (c :: tl) sub hwsub hmem'
        exact ⟨mf', by simp [get_field_value_and_info, getattrOpt, hv, hlk, hres]⟩

/-- Every component of a spec walker path of a well-formed schema is a usable attribute
name. -/
theorem specLeaf_valid :
    ∀ (S : Schema), wfNames S = true →
      ∀ comps ∈ specFlattenLeafPaths S, ∀ c ∈ comps, validName c = true
  | .nil, _, comps, hmem, _, _ => by simp [specFlattenLeafPaths] at hmem
  | .consPrim n t sh ex rest, hwf, comps, hmem, c, hc => by
      simp only [wfNames, Bool.and_eq_true] at hwf
      rcases List.mem_cons.mp hmem with rfl | hmem'
      · rcases List.mem_singleton.mp hc with rfl
        exact hwf.1.1
      · exact specLeaf_valid rest hwf.2 comps hmem' c hc
  | .consModel n s sh ex rest, hwf, comps, hmem, c, hc => by
      simp only [wfNames, Bool.and_eq_true] at hwf
      simp only [specFlattenLeafPaths] at hmem
      rcases List.mem_append.mp hmem with hl | hr
      · by_cases hsh : sh = Shape.SHAPE_SINGLETON
        · subst hsh
          rw [if_pos rfl] at hl
          obtain ⟨p, hp, rfl⟩ := List.mem_map.mp hl
          rcases List.mem_cons.mp hc with rfl | hc'
          · exact hwf.1.1.1
          · exact specLeaf_valid s hwf.1.2 p hp c hc'
        · rw [if_neg hsh] at hl
          rcases List.mem_singleton.mp hl with rfl
          rcases List.mem_singleton.mp hc with rfl
          exact hwf.1.1.1
      · exact specLeaf_valid rest hwf.2 comps hr c hc

/-- Character sequence of a dot-joined path: the components' characters interleaved with
dots. -/
theorem toList_dotJoin :
    ∀ comps : List String, comps ≠ [] →
      (dotJoin comps).toList = ['.'].intercalate (comps.map String.toList)
  | [], h => absurd rfl h
  | [c], _ => by simp [dotJoin, List.intercalate]
  | c :: c' :: cs, _ => by
      have ih := toList_dotJoin (c' :: cs) (by simp)
      simp only [String.toList] at ih ⊢
      rw [show dotJoin (c :: c' :: cs) = c ++ "." ++ dotJoin (c' :: cs) from rfl]
      rw [String.data_append, String.data_append, ih]
      rw [show (".").data = ['.'] from rfl]
      simp [List.intercalate, List.intersperse, List.append_assoc]

/-- Python's `split(".")` undoes dot-joining for nonempty dot-free components. -/
theorem pySplitDot_dotJoin (comps : List String) (hne : comps ≠ [])
    (hval : ∀ c ∈ comps, validName c = true) :
    pySplitDot (dotJoin comps) = comps := by
  unfold pySplitDot
  rw [toList_dotJoin comps hne]
  have hx : ∀ l ∈ comps.map String.toList, '.' ∉ l := by
    intro l hl
    obtain ⟨c, hc, rfl⟩ := List.mem_map.mp hl
    have hv := hval c hc
    simp only [validName, Bool.and_eq_true, Bool.not_eq_true'] at hv
    intro hmem
    exact absurd (List.elem_eq_true_of_mem hmem) (by simpa [List.contains] using hv.2)
  have hls : comps.map String.toList ≠ [] := by simpa using hne
  rw [List.splitOn_intercalate (comps.map String.toList) '.' hx hls]
  rw [List.map_map]
  rw [show List.asString ∘ String.toList = id from funext String.asString_toList, List.map_id]

/-- C1 (confirmed): over a well-formed Schema, every dotted Field Path produced by
`flatten_fields`, split back into components the way `iter_model_formatted` does, resolves
through `get_field_value_and_info` without failure on every conforming Record — returning
the value together with `some` field metadata — and on the all-absent placeholder Record
(every optional intermediate absent) it resolves to `None`, still with `some` metadata. -/
theorem resolver_totality (S : Schema) (R : Value) (hwf : wfNames S = true)
    (hc : ConformsV S R) :
    ∀ name ∈ flatten_fields S,
      (∃ v mf, get_field_value_and_info R (pySplitDot name) = .ok (v, some mf)) ∧
      (∃ mf, get_field_value_and_info (.vModel S (constructNone S)) (pySplitDot name) =
        .ok (.vNone, some mf)) := by
  intro name hname
  rw [flatten_eq_dotJoin_spec] at hname
  obtain ⟨comps, hcomps, rfl⟩ := List.mem_map.mp hname
  have hne : comps ≠ [] := specFlattenLeafPaths_ne_nil S comps hcomps
  have hsplit : pySplitDot (dotJoin comps) = comps :=
    pySplitDot_dotJoin comps hne (specLeaf_valid S hwf comps hcomps)
  rw [hsplit]
  exact ⟨resolve_conforms comps S R hwf hc hcomps, resolve_placeholder comps S hwf hcomps⟩

/-- Witness for C1: the docstring's Parent/Child schema, a Record whose optional `child`
is absent, and the walker path `child.field_1`. -/
theorem resolver_totality_witness :
    (wfNames parentSchema = true) ∧ ConformsV parentSchema parentNoChild ∧
    ("child.field_1" ∈ flatten_fields parentSchema) ∧
    ((∃ v mf, get_field_value_and_info parentNoChild (pySplitDot "child.field_1") =
        .ok (v, some mf)) ∧
     (∃ mf,
        get_field_value_and_info
          (.vModel parentSchema (constructNone parentSchema)) (pySplitDot "child.field_1") =
          .ok (.vNone, some mf))) := by
  have hc : ConformsV parentSchema parentNoChild :=
    ConformsV.mk _ _
      (ConformsAttrs.prim _ _ _ _ _ _ (.vStr "x") rfl
        (ConformsAttrs.modelNone _ _ _ _ _ _ rfl (ConformsAttrs.nil _)))
  exact ⟨by decide, hc, by decide,
    resolver_totality parentSchema parentNoChild (by decide) hc "child.field_1" (by decide)⟩

/-! ### Empty-string / absent round-trip -/

/-- The declared names of a well-formed schema are distinct. -/
theorem names_nodup : ∀ S : Schema, wfNames S = true → (names S).Nodup
  | .nil, _ => by simp [names]
  | .consPrim n t sh ex rest, hwf => by
      simp only [wfNames, Bool.and_eq_true] at hwf
      rw [names, List.nodup_cons]
      refine ⟨fun hmem => ?_, names_nodup rest hwf.2⟩
      have h1 := hwf.1.2
      rw [Bool.not_eq_true'] at h1
      exact absurd (List.elem_eq_true_of_mem hmem) (by simpa [List.contains] using h1)
  | .consModel n s sh ex rest, hwf => by
      simp only [wfNames, Bool.and_eq_true] at hwf
      rw [names, List.nodup_cons]
      refine ⟨fun hmem => ?_, names_nodup rest hwf.2⟩
      have h1 := hwf.1.1.2
      rw [Bool.not_eq_true'] at h1
      exact absurd (List.elem_eq_true_of_mem hmem) (by simpa [List.contains] using h1)

/-- Association lookup over a keyed map of a name list hits the mapped value. -/
theorem alookup_map_self {β : Type} :
    ∀ (ns : List String) (g : String → β) (h : String), h ∈ ns →
      alookup (ns.map (fun n => (n, g n))) h = some (g h)
  | [], _, _, hh => absurd hh (by simp)
  | m :: ns', g, h, hh => by
      by_cases hm : m = h
      · subst hm
        simp [alookup]
      · rcases List.mem_cons.mp hh with rfl | hh'
        · exact absurd rfl hm
        · simp only [List.map_cons, alookup, if_neg hm]
          exact alookup_map_self ns' g h hh'

/-- The pydantic field-to-value mapping with `include=None` is the full
field-to-attribute map. -/
theorem alookup_pydantic_dict_none (cls : Schema) (attrs : List (String × Value))
    (h : String) (hh : h ∈ names cls) :
    alookup (pydantic_dict_items (.vModel cls attrs) .noneInclude) h =
      some ((alookup attrs h).getD .vNone) := by
  have hmap : ∀ ns : List String,
      ns.filterMap (fun n => some (n, (alookup attrs n).getD Value.vNone)) =
        ns.map (fun n => (n, (alookup attrs n).getD Value.vNone)) := by
    intro ns
    induction ns with
    | nil => rfl
    | cons x xs ih => simp [List.filterMap_cons, ih]
  have hpd : pydantic_dict_items (.vModel cls attrs) .noneInclude =
      (names cls).map (fun n => (n, (alookup attrs n).getD .vNone)) := by
    simp only [pydantic_dict_items, colsAllow, if_pos]
    exact hmap (names cls)
  rw [hpd]
  exact alookup_map_self (names cls) _ h hh

/-- The attribute a scalar-schema Record construction stores for a declared field is its
normalized row cell (string → value, absent → `None`). -/
theorem alookup_scalarAttrs :
    ∀ (cls : Schema) (row : List (String × Option String)) (n : String),
      isScalarSchema cls = true → n ∈ names cls →
      alookup (scalarAttrs cls row) n =
        some (match alookup row n with
              | some (some s) => Value.vStr s
              | _ => Value.vNone)
  | .nil, _, n, _, hn => absurd hn (by simp [names])
  | .consPrim m t sh ex rest, row, n, hs, hn => by
      by_cases hm : m = n
      · subst hm
        simp [scalarAttrs, alookup]
      · rcases List.mem_cons.mp hn with rfl | hn'
        · exact absurd rfl hm
        · simp only [scalarAttrs, alookup, if_neg hm]
          exact alookup_scalarAttrs rest row n (by simpa [isScalarSchema] using hs) hn'
  | .consModel m s sh ex rest, _, n, hs, _ => by simp [isScalarSchema] at hs

/-- Looking a zipped cell up in the normalized row yields its normalization. -/
theorem alookup_normalizeRow_mem :
    ∀ (ns row : List String), ns.Nodup → ∀ kv ∈ ns.zip row,
      alookup (normalizeRow ns row) kv.1 =
        some (if kv.2 = "" then none else some kv.2)
  | [], row, _, kv, hkv => absurd hkv (by simp)
  | m :: ns', [], _, kv, hkv => absurd hkv (by simp)
  | m :: ns', c :: row', hnd, kv, hkv => by
      rw [List.nodup_cons] at hnd
      rcases List.mem_cons.mp hkv with rfl | hkv'
      · simp [normalizeRow, alookup]
      · have h1 : kv.1 ∈ ns' := (List.of_mem_zip hkv').1
        have hm : m ≠ kv.1 := fun h => hnd.1 (h ▸ h1)
        simp only [normalizeRow, List.zip_cons_cons, List.map_cons, alookup, if_neg hm]
        exact alookup_normalizeRow_mem ns' row' hnd.2 kv hkv'

/-- Re-rendering the normalized cells of a row through the scalar value embedding
reproduces the row. -/
theorem map_recover :
    ∀ (ns row : List String), ns.Nodup → ns.length = row.length →
      ns.map (fun h => pyStr (match alookup (normalizeRow ns row) h with
        | some (some s) => Value.vStr s
        | _ => Value.vNone)) = row
  | [], [], _, _ => rfl
  | [], _ :: _, _, hlen => by simp at hlen
  | _ :: _, [], _, hlen => by simp at hlen
  | m :: ns', c :: row', hnd, hlen => by
      rw [List.nodup_cons] at hnd
      have hrec :
          normalizeRow (m :: ns') (c :: row') =
            (m, if c = "" then none else some c) :: normalizeRow ns' row' := rfl
      rw [List.map_cons, hrec]
      have hhead :
          pyStr (match alookup ((m, if c = "" then none else some c) :: normalizeRow ns' row') m with
            | some (some s) => Value.vStr s
            | _ => Value.vNone) = c := by
        by_cases hc : c = ""
        · subst hc
          simp [alookup, pyStr]
        · simp [alookup, if_neg hc, pyStr]
      rw [hhead]
      have htail :
          ns'.map (fun h =>
              pyStr (match alookup ((m, if c = "" then none else some c) :: normalizeRow ns' row') h with
                | some (some s) => Value.vStr s
                | _ => Value.vNone)) =
            ns'.map (fun h => pyStr (match alookup (normalizeRow ns' row') h with
                | some (some s) => Value.vStr s
                | _ => Value.vNone)) := by
        refine List.map_congr_left (fun h hh => ?_)
        have hm : m ≠ h := fun he => hnd.1 (he ▸ hh)
        rw [show alookup ((m, if c = "" then none else some c) :: normalizeRow ns' row') h =
              alookup (normalizeRow ns' row') h by simp [alookup, if_neg hm]]
      rw [htail, map_recover ns' row' hnd.2 (by simpa using hlen)]

/-- One written row of a freshly-ingested scalar Record reproduces the original CSV
row. -/
theorem write_row_recover (cls : Schema) (row : List String)
    (hs : isScalarSchema cls = true) (hwf : wfNames cls = true)
    (hrowlen : row.length = (names cls).length) :
    (names cls).map (fun h =>
      match alookup (pydantic_dict_items
          (.vModel cls (scalarAttrs cls (normalizeRow (names cls) row))) .noneInclude) h with
      | some v => pyStr v
      | none => "") = row := by
  have h1 : ∀ h ∈ names cls,
      (match alookup (pydantic_dict_items
          (.vModel cls (scalarAttrs cls (normalizeRow (names cls) row))) .noneInclude) h with
       | some v => pyStr v
       | none => "") =
      pyStr (match alookup (normalizeRow (names cls) row) h with
        | some (some s) => Value.vStr s
        | _ => Value.vNone) := by
    intro h hh
    rw [alookup_pydantic_dict_none cls _ h hh, alookup_scalarAttrs cls _ h hs hh]
    rfl
  rw [List.map_congr_left h1]
  exact map_recover (names cls) row (names_nodup cls hwf) hrowlen.symm

/-- Scalar-schema ingest never fails: every row yields a Record and no error is
remembered. -/
theorem read_models_loop_scalar (cls : Schema) (pathStr : String) (header : List String) :
    ∀ (ln : Nat) (rows : List (List String)),
      read_models_loop (mkScalarRecord cls) pathStr header ln rows =
        (rows.map (fun row => .vModel cls (scalarAttrs cls (normalizeRow header row))), none)
  | _, [] => rfl
  | ln, row :: rest => by
      simp only [read_models_loop, read_models_loop_scalar cls pathStr header (ln + 1) rest,
        mkScalarRecord, List.map_cons]

/-- C8 (confirmed): reading normalizes every empty-string cell of every row to absent (in
both `read_models_from_csv` and `read_dict_from_csv`, and only the empty cells); writing a
pure-scalar Record turns each absent field back into an empty cell; composing
`write_models_to_csv` after `read_models_from_csv` on a CSV whose header is the schema's
field list reproduces the CSV's header and rows exactly. -/
theorem csv_empty_string_roundtrip (cls : Schema) (pathStr : String)
    (rows : List (List String)) (hs : isScalarSchema cls = true)
    (hwf : wfNames cls = true)
    (hlen : ∀ row ∈ rows, row.length = (names cls).length) :
    (read_models_from_csv (mkScalarRecord cls) pathStr ⟨names cls :: rows⟩).2 = none ∧
    (rows ≠ [] →
      write_models_to_csv
        (read_models_from_csv (mkScalarRecord cls) pathStr ⟨names cls :: rows⟩).1 none =
        .ok ⟨names cls, rows⟩) ∧
    read_dict_from_csv ⟨names cls :: rows⟩ none = rows.map (normalizeRow (names cls)) ∧
    (∀ row ∈ rows, ∀ kv ∈ (names cls).zip row,
      (alookup (normalizeRow (names cls) row) kv.1 = some none ↔ kv.2 = "")) := by
  refine ⟨?_, ?_, rfl, ?_⟩
  · simp [read_models_from_csv, read_models_loop_scalar]
  · intro hne
    have hmodels : (read_models_from_csv (mkScalarRecord cls) pathStr ⟨names cls :: rows⟩).1 =
        rows.map (fun row => Value.vModel cls (scalarAttrs cls (normalizeRow (names cls) row))) := by
      simp [read_models_from_csv, read_models_loop_scalar]
    rw [hmodels]
    have hall : ∀ m ∈ rows.map (fun row =>
        Value.vModel cls (scalarAttrs cls (normalizeRow (names cls) row))),
        ∃ attrs, m = .vModel cls attrs := by
      intro m hm
      obtain ⟨row, _, rfl⟩ := List.mem_map.mp hm
      exact ⟨_, rfl⟩
    rw [write_models_to_csv_of_class cls _ none (by simpa using hne)
      (fun h => IncludeArg.noConfusion h) hall]
    have hfinal :
        (rows.map (fun row =>
            Value.vModel cls (scalarAttrs cls (normalizeRow (names cls) row)))).map
          (fun m => (names cls).map fun h =>
            match alookup (pydantic_dict_items m (normalizeColumns none)) h with
            | some v => pyStr v
            | none => "") = rows := by
      rw [List.map_map]
      have hpt : rows.map ((fun m => (names cls).map fun h =>
            match alookup (pydantic_dict_items m (normalizeColumns none)) h with
            | some v => pyStr v
            | none => "") ∘ fun row =>
              Value.vModel cls (scalarAttrs cls (normalizeRow (names cls) row))) =
          rows.map id :=
        List.map_congr_left (fun row hrow => write_row_recover cls row hs hwf (hlen row hrow))
      rw [hpt, List.map_id]
    rw [hfinal]
  · intro row _ kv hkv
    rw [alookup_normalizeRow_mem (names cls) row (names_nodup cls hwf) kv hkv]
    by_cases hc : kv.2 = ""
    · simp [hc]
    · simp [hc]

/-- Witness for C8: a two-field string schema, two rows each containing one empty cell. -/
theorem csv_empty_string_roundtrip_witness :
    (isScalarSchema csvPairSchema = true) ∧ (wfNames csvPairSchema = true) ∧
    (∀ row ∈ [["u", ""], ["", "v"]], row.length = (names csvPairSchema).length) ∧
    ((read_models_from_csv (mkScalarRecord csvPairSchema) "t.csv"
        ⟨names csvPairSchema :: [["u", ""], ["", "v"]]⟩).2 = none ∧
     ([["u", ""], ["", "v"]] ≠ ([] : List (List String)) →
       write_models_to_csv
         (read_models_from_csv (mkScalarRecord csvPairSchema) "t.csv"
           ⟨names csvPairSchema :: [["u", ""], ["", "v"]]⟩).1 none =
         .ok ⟨names csvPairSchema, [["u", ""], ["", "v"]]⟩) ∧
     read_dict_from_csv ⟨names csvPairSchema :: [["u", ""], ["", "v"]]⟩ none =
       [["u", ""], ["", "v"]].map (normalizeRow (names csvPairSchema)) ∧
     (∀ row ∈ [["u", ""], ["", "v"]], ∀ kv ∈ (names csvPairSchema).zip row,
       (alookup (normalizeRow (names csvPairSchema) row) kv.1 = some none ↔ kv.2 = ""))) :=
  ⟨rfl, rfl, by decide,
   csv_empty_string_roundtrip csvPairSchema "t.csv" [["u", ""], ["", "v"]] rfl rfl (by decide)⟩

end Incydr
